import Mathlib

/- Shallow embedding of the email-campaign demo: the contact store and its
mutation actions, the campaign runner, the subject sanitizer, the content
personalizer (all from src/app/actions.ts) and the open-tracking endpoint
(from src/app/api/track/[id]/route.ts). Machine strings are modeled as
Lean String or List Char; JS regex replacement with the g flag is modeled
by a left-to-right scan that does not rescan replacement text, matching
String.prototype.replace semantics for the literal patterns the source
uses, including ES GetSubstitution on the replacement string where the
replacement is contact-derived (the personalizer); the sanitizer only ever
substitutes fixed dollar-free constants, for which GetSubstitution is the
identity. Wall-clock values (toISOString, toLocaleDateString) are passed in as
explicit parameters. The mail transport and the backend health check are
external collaborators; their outcomes enter as explicit parameters
(healthy, sendOk), mirroring the try/catch structure of sendCampaign. -/

namespace Studio

/-! ## Data model (src/lib/types.ts) -/

inductive Status where
  | Pending
  | Sent
  | Error
  deriving DecidableEq, Repr

structure Contact where
  id : String
  firstName : String
  lastName : String
  email : String
  status : Status
  sentTimestamp : Option String
  openTimestamp : Option String
  deriving DecidableEq, Repr

structure Campaign where
  subject : String
  body : String
  senderName : String
  senderEmail : String
  replyTo : String
  deriving DecidableEq, Repr

structure DB where
  contacts : List Contact
  campaign : Campaign
  deriving DecidableEq, Repr

structure MutResult where
  success : Bool
  message : String
  deriving DecidableEq, Repr

structure SendStats where
  sent : Nat
  failed : Nat
  total : Nat
  deriving DecidableEq, Repr

structure RunResult where
  success : Bool
  message : String
  error : Option String
  stats : Option SendStats
  errors : List String
  deriving DecidableEq, Repr

/-! ## String machinery: global regex replacement with a string replacement

JS content.replace(/pat/g, repl) for a literal pattern pat scans left to
right, replaces each non-overlapping occurrence, and never rescans the
replacement text. The replacement string itself goes through ES
GetSubstitution: the two-character sequences with a dollar sign insert a
dollar sign, the matched text, or the part of the subject before or after
the match; every other sequence, dollar-digit and dollar-angle included
(the patterns of this program have no capture groups), stays literal.
rtAux models that scan; it carries the subject prefix already consumed (for
the dollar-backquote form) and a count of characters still to be skipped
after emitting a replacement. -/

def starts : List Char → List Char → Bool
  | [], _ => true
  | _ :: _, [] => false
  | p :: ps, c :: cs => (p == c) && starts ps cs

/-- ES GetSubstitution for a pattern without capture groups: matched is the
matched text, before and after the parts of the subject around the match.
The character written as x60 is the backquote, x27 the single quote. -/
def expandDollar (matched before after : List Char) : List Char → List Char
  | [] => []
  | [c] => [c]
  | c :: c2 :: rest =>
    if c = '$' then
      if c2 = '$' then '$' :: expandDollar matched before after rest
      else if c2 = '&' then matched ++ expandDollar matched before after rest
      else if c2 = '\x60' then before ++ expandDollar matched before after rest
      else if c2 = '\x27' then after ++ expandDollar matched before after rest
      else c :: expandDollar matched before after (c2 :: rest)
    else c :: expandDollar matched before after (c2 :: rest)

def rtAux (pat repl : List Char) : List Char → List Char → Nat → List Char
  | _, [], _ => []
  | pre, c :: cs, n + 1 => rtAux pat repl (pre ++ [c]) cs n
  | pre, c :: cs, 0 =>
    if starts pat (c :: cs) then
      expandDollar pat pre (cs.drop (pat.length - 1)) repl
        ++ rtAux pat repl (pre ++ [c]) cs (pat.length - 1)
    else c :: rtAux pat repl (pre ++ [c]) cs 0

def replaceAllL (pat repl s : List Char) : List Char := rtAux pat repl [] s 0

/-- Boolean substring test: containsSub pat s is true iff pat occurs
contiguously in s. -/
def containsSub (pat : List Char) : List Char → Bool
  | [] => starts pat []
  | c :: cs => starts pat (c :: cs) || containsSub pat cs

/-- Case-insensitive character comparison, as the regex i flag folds ASCII
letters. -/
def ciEq (a b : Char) : Bool := a.toUpper == b.toUpper

def startsCI : List Char → List Char → Bool
  | [], _ => true
  | _ :: _, [] => false
  | p :: ps, c :: cs => ciEq p c && startsCI ps cs

def rtAuxCI (pat repl : List Char) : List Char → Nat → List Char
  | [], _ => []
  | _ :: cs, n + 1 => rtAuxCI pat repl cs n
  | c :: cs, 0 =>
    if startsCI pat (c :: cs) then repl ++ rtAuxCI pat repl cs (pat.length - 1)
    else c :: rtAuxCI pat repl cs 0

def replaceAllCIL (pat repl s : List Char) : List Char := rtAuxCI pat repl s 0

/-- Models JS String.prototype.trim on the ASCII whitespace the store
produces. -/
def isWS (c : Char) : Bool := c == ' ' || c == '\t' || c == '\n' || c == '\r'

def trimL (s : List Char) : List Char :=
  ((s.dropWhile isWS).reverse.dropWhile isWS).reverse

/-! ## Content Personalizer (personalizeContent, actions.ts lines 122-128)

The four placeholder patterns, written as explicit character lists. -/

inductive Tok where
  | first
  | last
  | full
  | date
  deriving DecidableEq, Repr

def tokStr : Tok → List Char
  | Tok.first =>
    ['\x7b', '\x7b', 'f', 'i', 'r', 's', 't', 'N', 'a', 'm', 'e', '\x7d', '\x7d']
  | Tok.last =>
    ['\x7b', '\x7b', 'l', 'a', 's', 't', 'N', 'a', 'm', 'e', '\x7d', '\x7d']
  | Tok.full =>
    ['\x7b', '\x7b', 'f', 'u', 'l', 'l', 'N', 'a', 'm', 'e', '\x7d', '\x7d']
  | Tok.date =>
    ['\x7b', '\x7b', 'd', 'a', 't', 'e', '\x7d', '\x7d']

/-- The fullName value: firstName, a space, lastName, then trim, exactly as
the template literal plus .trim() in the source. -/
def fullNameOf (first last : List Char) : List Char := trimL (first ++ ' ' :: last)

/-- The replacement chain of personalizeContent, in source order: firstName,
lastName, fullName, date. dateStr stands for new Date().toLocaleDateString(). -/
def personalizeL (first last dateStr s : List Char) : List Char :=
  replaceAllL (tokStr Tok.date) dateStr
    (replaceAllL (tokStr Tok.full) (fullNameOf first last)
      (replaceAllL (tokStr Tok.last) last
        (replaceAllL (tokStr Tok.first) first s)))

def personalizeContent (dateStr : String) (content : String) (c : Contact) : String :=
  String.mk (personalizeL c.firstName.toList c.lastName.toList dateStr.toList content.toList)

/-! ## Subject Sanitizer (createAntiSpamSubject, actions.ts lines 105-120) -/

/-- The spamWords table in JS object-literal insertion order, which is the
iteration order of the for-in loop. -/
def spamPairs : List (List Char × List Char) :=
  [ ("FREE".toList, "Complimentary".toList)
  , ("URGENT".toList, "Important".toList)
  , ("ACT NOW".toList, "Take Action".toList)
  , ("LIMITED TIME".toList, "Special Offer".toList)
  , ("CLICK HERE".toList, "Learn More".toList)
  , ("BUY NOW".toList, "Get Started".toList)
  , ("MONEY".toList, "Value".toList)
  , ("CASH".toList, "Savings".toList)
  , ("WIN".toList, "Receive".toList)
  , ("WINNER".toList, "Selected".toList)
  , ("DEAL".toList, "Offer".toList)
  , ("SALE".toList, "Special Price".toList) ]

def applySpamTable (s : List Char) : List Char :=
  spamPairs.foldl (fun acc pr => replaceAllCIL pr.1 pr.2 acc) s

/-- charAt(0).toUpperCase() + slice(1).toLowerCase(). -/
def sentenceCaseL : List Char → List Char
  | [] => []
  | c :: cs => c.toUpper :: cs.map Char.toLower

/-- Models .replace(/c:2,:/g, c): every maximal run of the character is
collapsed to a single copy, runs of length one included (they are left as
they are, which a single copy also is). -/
def collapseRun (ch : Char) : List Char → List Char
  | [] => []
  | [c] => [c]
  | c :: c2 :: cs =>
    if c = ch ∧ c2 = ch then collapseRun ch (c2 :: cs)
    else c :: collapseRun ch (c2 :: cs)

def createAntiSpamSubjectL (subject : List Char) : List Char :=
  let a := applySpamTable subject
  let b := if a.map Char.toUpper = a ∧ 5 < a.length then sentenceCaseL a else a
  collapseRun '?' (collapseRun '!' b)

/-- The firstName parameter is present in the source signature but unused in
its body. -/
def createAntiSpamSubject (subject : String) (firstName : String) : String :=
  String.mk (createAntiSpamSubjectL subject.toList)

/-! ## Contact store mutation actions (actions.ts) -/

/-- The data supplied to addContact/addContacts: a contact minus id, status
and timestamps. -/
structure ContactData where
  firstName : String
  lastName : String
  email : String
  deriving DecidableEq, Repr

/-- Models JS parseInt on the decimal id strings this store produces: the
longest leading run of digits, none when there is no leading digit (NaN). -/
def parseIntJS (s : String) : Option Nat :=
  let ds := s.toList.takeWhile Char.isDigit
  if ds.isEmpty then none
  else some (ds.foldl (fun a c => a * 10 + (c.toNat - 48)) 0)

/-- Math.max(0, ...contacts.map(c => parseInt(c.id))): none models the NaN
that poisons Math.max when any id fails to parse. -/
def maxIdJS (contacts : List Contact) : Option Nat :=
  contacts.foldl
    (fun acc c =>
      match acc, parseIntJS c.id with
      | some m, some v => some (Nat.max m v)
      | _, _ => none)
    (some 0)

def newIdFor (contacts : List Contact) : String :=
  match maxIdJS contacts with
  | some m => toString (m + 1)
  | none => "NaN"

def mkContact (i : String) (d : ContactData) : Contact :=
  { id := i, firstName := d.firstName, lastName := d.lastName, email := d.email
  , status := Status.Pending, sentTimestamp := none, openTimestamp := none }

def addContact (d : ContactData) (db : DB) : DB × MutResult :=
  ({ db with contacts := db.contacts ++ [mkContact (newIdFor db.contacts) d] },
   { success := true, message := "Contact added!" })

def addContacts (ds : List ContactData) (db : DB) : DB × MutResult :=
  let news :=
    match maxIdJS db.contacts with
    | some m => ds.enum.map (fun p => mkContact (toString (m + 1 + p.1)) p.2)
    | none => ds.map (fun d => mkContact "NaN" d)
  ({ db with contacts := db.contacts ++ news },
   { success := true, message := toString ds.length ++ " contacts added!" })

def deleteContacts (ids : List String) (db : DB) : DB × MutResult :=
  ({ db with contacts := db.contacts.filter (fun c => !(decide (c.id ∈ ids))) },
   { success := true, message := "Selected contacts deleted." })

def capitalize (s : String) : String :=
  match s.toList with
  | [] => ""
  | c :: cs => String.mk (c.toUpper :: cs.map Char.toLower)

def cleanContact (ids : List String) (c : Contact) : Contact :=
  if c.id ∈ ids then
    { c with email := c.email.trim.toLower
           , firstName := capitalize c.firstName.trim
           , lastName := capitalize c.lastName.trim }
  else c

def cleanContacts (ids : List String) (db : DB) : DB × MutResult :=
  ({ db with contacts := db.contacts.map (cleanContact ids) },
   { success := true
   , message :=
       "Cleaned "
         ++ toString (db.contacts.filter (fun c => decide (c.id ∈ ids))).length
         ++ " contacts." })

/-- db.campaign = ...db.campaign, ...data with data carrying every field:
the merge replaces the whole record. -/
def updateCampaign (data : Campaign) (db : DB) : DB × MutResult :=
  ({ db with campaign := data },
   { success := true, message := "Campaign updated successfully!" })

/-! ## Campaign Runner (sendCampaign, actions.ts lines 167-315) -/

def isPending (c : Contact) : Bool :=
  match c.status with
  | Status.Pending => true
  | _ => false

/-- One loop iteration viewed per contact: a pending contact becomes Sent
with sentTimestamp set on transport success, Error (timestamps untouched)
on transport failure; non-pending contacts are never in pendingContacts and
pass through unchanged. -/
def contactStep (sendOk : Contact → Bool) (now : String) (c : Contact) : Contact :=
  if isPending c then
    if sendOk c then { c with status := Status.Sent, sentTimestamp := some now }
    else { c with status := Status.Error }
  else c

def noPendingResult : RunResult :=
  { success := false, message := "No pending contacts to send to!"
  , error := none, stats := none, errors := [] }

def configErrorMessage : String :=
  "Cannot connect to email backend. Please make sure the backend server is running on port 5000."

def configErrorResult (eMsg : String) : RunResult :=
  { success := false, message := configErrorMessage
  , error := some eMsg, stats := none, errors := [] }

def completedMessage (sent failed : Nat) : String :=
  if 0 < failed then
    "Campaign completed! " ++ toString sent ++ " emails sent successfully, "
      ++ toString failed ++ " failed."
  else
    "Campaign sent successfully to " ++ toString sent ++ " recipients! 🎉"

/-- sendCampaign. healthy abstracts the pre-flight health check (fetch ok
and health.emailService === loaded); sendOk abstracts the per-contact
outcome of sendEmailViaBackend (true: resolves, false: throws);
sendErrMsg the thrown error message; healthErr the message of the health
check failure; now the clock value used for sentTimestamp. Personalization
and sanitization are pure and cannot throw, so the loop outcome per contact
is exactly sendOk. -/
def sendCampaign (healthy : Bool) (sendOk : Contact → Bool)
    (sendErrMsg : Contact → String) (healthErr : String) (now : String)
    (db : DB) : DB × RunResult :=
  let pending := db.contacts.filter isPending
  if pending.isEmpty then (db, noPendingResult)
  else if healthy = false then (db, configErrorResult healthErr)
  else
    let sent := (pending.filter (fun c => sendOk c)).length
    let failed := (pending.filter (fun c => !(sendOk c))).length
    let errs := (pending.filter (fun c => !(sendOk c))).map
      (fun c => c.email ++ ": " ++ sendErrMsg c)
    ({ db with contacts := db.contacts.map (contactStep sendOk now) },
     { success := decide (0 < sent)
     , message := completedMessage sent failed
     , error := none
     , stats := some { sent := sent, failed := failed, total := pending.length }
     , errors := errs })

/-! ## Tracking endpoint (route.ts) -/

structure PixelResponse where
  body : String
  contentType : String
  cacheControl : String
  pragma : String
  expires : String
  deriving DecidableEq, Repr

def pixelResponse : PixelResponse :=
  { body := "R0lGODlhAQABAIAAAAAAAP///yH5BAEAAAAALAAAAAABAAEAAAIBRAA7"
  , contentType := "image/gif"
  , cacheControl := "no-cache, no-store, must-revalidate"
  , pragma := "no-cache"
  , expires := "0" }

/-- db.contacts.find(c => c.id === contactId) followed by the guarded write:
only the first contact with the id, and only when openTimestamp is not yet
set. -/
def trackUpdate (now id : String) : List Contact → List Contact
  | [] => []
  | c :: cs =>
    if c.id = id then
      (if c.openTimestamp = none then { c with openTimestamp := some now } :: cs
       else c :: cs)
    else c :: trackUpdate now id cs

/-- GET /track/[id]: the contactId truthiness guard, the store side effect,
and the unconditional pixel response. -/
def trackGet (now id : String) (contacts : List Contact) :
    List Contact × PixelResponse :=
  (if id = "" then contacts else trackUpdate now id contacts, pixelResponse)

/-! ## Template grammar for the personalizer claim

A template that contains only known tokens is an interleaving of literal
segments and the four known placeholder tokens. -/

inductive Seg where
  | lit (s : List Char)
  | tok (t : Tok)
  deriving DecidableEq, Repr

def assemble : List Seg → List Char
  | [] => []
  | Seg.lit s :: rest => s ++ assemble rest
  | Seg.tok t :: rest => tokStr t ++ assemble rest

def substOne (t : Tok) (r : List Char) : Seg → Seg
  | Seg.lit s => Seg.lit s
  | Seg.tok t' => if t' = t then Seg.lit r else Seg.tok t'

def substTok (t : Tok) (r : List Char) (segs : List Seg) : List Seg :=
  segs.map (substOne t r)

/-! ## Invariants -/

def ContactInv (c : Contact) : Prop :=
  (c.status = Status.Pending → c.sentTimestamp = none)
    ∧ (c.status = Status.Sent → c.sentTimestamp ≠ none)

def StoreInv (cs : List Contact) : Prop := ∀ c ∈ cs, ContactInv c

/-! ## Concrete data for witnesses and counterexamples -/

def camp0 : Campaign :=
  { subject := "s", body := "b", senderName := "n", senderEmail := "e", replyTo := "r" }

def pendingContact (i fn ln em : String) : Contact :=
  { id := i, firstName := fn, lastName := ln, email := em
  , status := Status.Pending, sentTimestamp := none, openTimestamp := none }

def sentContact (i : String) : Contact :=
  { id := i, firstName := "A", lastName := "B", email := "a@b.c"
  , status := Status.Sent, sentTimestamp := some "2024-01-01", openTimestamp := none }

def dbC1 : DB :=
  { contacts :=
      [ pendingContact "1" "Ann" "One" "ann@x.com"
      , pendingContact "2" "Bob" "Two" "bob@x.com"
      , pendingContact "3" "Cay" "Three" "cay@x.com" ]
  , campaign := camp0 }

def sOkC1 : Contact → Bool := fun c => !(c.id == "2")

def dbC2 : DB := { contacts := [sentContact "1"], campaign := camp0 }

def dbC3 : DB := { contacts := [pendingContact "1" "A" "B" "a@x.com"], campaign := camp0 }

def emptyDB : DB := { contacts := [], campaign := camp0 }

def dbC8 : DB :=
  { contacts := [sentContact "1", pendingContact "2" "B" "C" "b@x.com"], campaign := camp0 }

def dbC9 : DB :=
  { contacts := [sentContact "1", pendingContact "2" "B" "C" "b@x.com"], campaign := camp0 }

def dbC10 : DB :=
  { contacts := [sentContact "1", pendingContact "2" "B" "C" "b@x.com"], campaign := camp0 }

def trackListC7 : List Contact := [pendingContact "7" "A" "B" "a@x.com"]

def dW : ContactData := { firstName := "X", lastName := "Y", email := "z@x.com" }

def segsC5 : List Seg := [Seg.lit ['H', 'i', ' '], Seg.tok Tok.first]

def unknownTokC5 : List Char := ['\x7b', '\x7b', 'e', 'm', 'a', 'i', 'l', '\x7d', '\x7d']

/-! ## Helper lemmas on the replacement scan -/

theorem starts_append_self (p y : List Char) : starts p (p ++ y) = true := by
  induction p with
  | nil => rfl
  | cons a as ih => simp [starts, ih]

theorem expandDollar_eq_self (matched before after : List Char) :
    ∀ repl, '$' ∉ repl → expandDollar matched before after repl = repl := by
  intro repl
  induction repl with
  | nil => intro _; rfl
  | cons c rest ih =>
    intro h
    cases rest with
    | nil => rfl
    | cons c2 rest2 =>
      have hc : ¬ c = '$' := fun he => h (by simp [he])
      show (if c = '$' then _ else c :: expandDollar matched before after (c2 :: rest2))
          = c :: c2 :: rest2
      rw [if_neg hc]
      exact congrArg (c :: ·) (ih (fun hm => h (by simp [hm])))

theorem rtAux_skip (pat repl : List Char) (x y : List Char) :
    ∀ pre, rtAux pat repl pre (x ++ y) x.length = rtAux pat repl (pre ++ x) y 0 := by
  induction x with
  | nil => intro pre; simp
  | cons a as ih =>
    intro pre
    show rtAux pat repl (pre ++ [a]) (as ++ y) as.length = _
    rw [ih (pre ++ [a])]
    simp

theorem rt_match (p0 : Char) (pt repl y pre : List Char) :
    rtAux (p0 :: pt) repl pre ((p0 :: pt) ++ y) 0
      = expandDollar (p0 :: pt) pre y repl
        ++ rtAux (p0 :: pt) repl (pre ++ (p0 :: pt)) y 0 := by
  have h : starts (p0 :: pt) (p0 :: (pt ++ y)) = true := starts_append_self (p0 :: pt) y
  show (if starts (p0 :: pt) (p0 :: (pt ++ y)) then
          expandDollar (p0 :: pt) pre ((pt ++ y).drop ((p0 :: pt).length - 1)) repl
            ++ rtAux (p0 :: pt) repl (pre ++ [p0]) (pt ++ y) ((p0 :: pt).length - 1)
        else p0 :: rtAux (p0 :: pt) repl (pre ++ [p0]) (pt ++ y) 0)
      = expandDollar (p0 :: pt) pre y repl ++ rtAux (p0 :: pt) repl (pre ++ (p0 :: pt)) y 0
  rw [if_pos h]
  simp only [List.length_cons, Nat.add_sub_cancel]
  rw [List.drop_left, rtAux_skip]
  simp

theorem rt_step_no (pat repl : List Char) (c : Char) (cs pre : List Char)
    (h : starts pat (c :: cs) = false) :
    rtAux pat repl pre (c :: cs) 0 = c :: rtAux pat repl (pre ++ [c]) cs 0 := by
  show (if starts pat (c :: cs) then
          expandDollar pat pre (cs.drop (pat.length - 1)) repl
            ++ rtAux pat repl (pre ++ [c]) cs (pat.length - 1)
        else c :: rtAux pat repl (pre ++ [c]) cs 0)
      = c :: rtAux pat repl (pre ++ [c]) cs 0
  simp [h]

theorem rt_skip_of_all (pat repl : List Char) (x y : List Char)
    (h : ∀ k, k < x.length → starts pat (x.drop k ++ y) = false) :
    ∀ pre, rtAux pat repl pre (x ++ y) 0 = x ++ rtAux pat repl (pre ++ x) y 0 := by
  induction x with
  | nil => intro pre; simp
  | cons a as ih =>
    intro pre
    have h0 : starts pat (a :: (as ++ y)) = false := by simpa using h 0 (by simp)
    have hrest : ∀ k, k < as.length → starts pat (as.drop k ++ y) = false := by
      intro k hk
      simpa using h (k + 1) (by simpa using Nat.succ_lt_succ hk)
    rw [List.cons_append, rt_step_no pat repl a (as ++ y) pre h0, ih hrest (pre ++ [a])]
    simp

theorem rt_lit_skip (p0 : Char) (pt repl : List Char) (x y : List Char)
    (h : ∀ a ∈ x, a ≠ p0) :
    ∀ pre, rtAux (p0 :: pt) repl pre (x ++ y) 0
      = x ++ rtAux (p0 :: pt) repl (pre ++ x) y 0 := by
  induction x with
  | nil => intro pre; simp
  | cons a as ih =>
    intro pre
    have hne : (p0 == a) = false := beq_eq_false_iff_ne.mpr (fun he => h a (by simp) he.symm)
    have h0 : starts (p0 :: pt) (a :: (as ++ y)) = false := by simp [starts, hne]
    rw [List.cons_append, rt_step_no _ _ _ _ pre h0,
      ih (fun b hb => h b (by simp [hb])) (pre ++ [a])]
    simp

theorem rt_tok_skip (t t' : Tok) (h : t ≠ t') (repl y pre : List Char) :
    rtAux (tokStr t) repl pre (tokStr t' ++ y) 0
      = tokStr t' ++ rtAux (tokStr t) repl (pre ++ tokStr t') y 0 := by
  cases t <;> cases t' <;> first
    | exact absurd rfl h
    | (apply rt_skip_of_all
       intro k hk
       simp only [tokStr, List.length_cons, List.length_nil] at hk
       interval_cases k <;> rfl)

theorem rt_id_of_not_contains (pat repl : List Char) :
    ∀ s, containsSub pat s = false → ∀ pre, rtAux pat repl pre s 0 = s := by
  intro s
  induction s with
  | nil => intro _ pre; rfl
  | cons c cs ih =>
    intro h pre
    have h1 : starts pat (c :: cs) = false ∧ containsSub pat cs = false := by
      have h2 : (starts pat (c :: cs) || containsSub pat cs) = false := h
      simpa [Bool.or_eq_false_iff] using h2
    rw [rt_step_no _ _ _ _ pre h1.1, ih h1.2 (pre ++ [c])]

theorem containsSub_eq_false_of_head_not_mem (c : Char) (p s : List Char) (h : c ∉ s) :
    containsSub (c :: p) s = false := by
  induction s with
  | nil => rfl
  | cons a as ih =>
    have hca : c ≠ a := fun he => h (by simp [he])
    have hne : (c == a) = false := beq_eq_false_iff_ne.mpr hca
    show (starts (c :: p) (a :: as) || containsSub (c :: p) as) = false
    simp [starts, hne, ih (fun hm => h (by simp [hm]))]

theorem mem_trimL {a : Char} {l : List Char} (h : a ∈ trimL l) : a ∈ l := by
  have h1 : a ∈ (l.dropWhile isWS).reverse.dropWhile isWS := List.mem_reverse.mp h
  have h2 : a ∈ (l.dropWhile isWS).reverse := (List.dropWhile_sublist _).subset h1
  have h3 : a ∈ l.dropWhile isWS := List.mem_reverse.mp h2
  exact (List.dropWhile_sublist _).subset h3

/-! ## Helper lemmas on templates made of known tokens -/

theorem tokStr_head (t : Tok) : ∃ pt, tokStr t = '\x7b' :: pt := by
  cases t <;> exact ⟨_, rfl⟩

theorem replaceAll_assemble_aux (t : Tok) (r : List Char) (segs : List Seg)
    (hsegs : ∀ s, Seg.lit s ∈ segs → '\x7b' ∉ s) (hr : '$' ∉ r) :
    ∀ pre, rtAux (tokStr t) r pre (assemble segs) 0 = assemble (substTok t r segs) := by
  induction segs with
  | nil => intro pre; rfl
  | cons sg rest ih =>
    have hrest : ∀ s, Seg.lit s ∈ rest → '\x7b' ∉ s :=
      fun s hs => hsegs s (by simp [hs])
    intro pre
    cases sg with
    | lit s =>
      have hs : ∀ a ∈ s, a ≠ '\x7b' :=
        fun a ha heq => hsegs s (by simp) (heq ▸ ha)
      obtain ⟨pt, hp⟩ := tokStr_head t
      show rtAux (tokStr t) r pre (s ++ assemble rest) 0
          = assemble (substOne t r (Seg.lit s) :: substTok t r rest)
      rw [hp, rt_lit_skip _ _ _ _ _ hs pre, ← hp, ih hrest (pre ++ s)]
      rfl
    | tok t' =>
      by_cases ht : t' = t
      · subst ht
        obtain ⟨pt, hp⟩ := tokStr_head t'
        show rtAux (tokStr t') r pre (tokStr t' ++ assemble rest) 0
            = assemble (substOne t' r (Seg.tok t') :: substTok t' r rest)
        rw [hp, rt_match, ← hp, expandDollar_eq_self _ _ _ _ hr,
          ih hrest (pre ++ tokStr t')]
        simp [substOne, assemble]
      · show rtAux (tokStr t) r pre (tokStr t' ++ assemble rest) 0
            = assemble (substOne t r (Seg.tok t') :: substTok t r rest)
        rw [rt_tok_skip t t' (fun he => ht he.symm) r (assemble rest) pre,
          ih hrest (pre ++ tokStr t')]
        simp [substOne, ht, assemble]

theorem replaceAll_assemble (t : Tok) (r : List Char) (segs : List Seg)
    (hsegs : ∀ s, Seg.lit s ∈ segs → '\x7b' ∉ s) (hr : '$' ∉ r) :
    replaceAllL (tokStr t) r (assemble segs) = assemble (substTok t r segs) :=
  replaceAll_assemble_aux t r segs hsegs hr []

theorem substTok_lit_brace_free (t : Tok) (r : List Char) (segs : List Seg)
    (hsegs : ∀ s, Seg.lit s ∈ segs → '\x7b' ∉ s) (hr : '\x7b' ∉ r) :
    ∀ s, Seg.lit s ∈ substTok t r segs → '\x7b' ∉ s := by
  intro s hmem
  obtain ⟨sg0, h0, heq⟩ := List.mem_map.mp hmem
  cases sg0 with
  | lit s0 =>
    have hss : s0 = s := by simpa [substOne] using heq
    exact hss ▸ hsegs s0 h0
  | tok t0 =>
    by_cases ht : t0 = t
    · have hrs : r = s := by simpa [substOne, ht] using heq
      exact hrs ▸ hr
    · simp [substOne, ht] at heq

theorem substTok_tok_mem (t : Tok) (r : List Char) (segs : List Seg) (t0 : Tok)
    (h : Seg.tok t0 ∈ substTok t r segs) : t0 ≠ t ∧ Seg.tok t0 ∈ segs := by
  obtain ⟨sg0, h0, heq⟩ := List.mem_map.mp h
  cases sg0 with
  | lit s0 => simp [substOne] at heq
  | tok t1 =>
    by_cases ht : t1 = t
    · simp [substOne, ht] at heq
    · have h10 : t1 = t0 := by simpa [substOne, ht] using heq
      exact ⟨h10 ▸ ht, h10 ▸ h0⟩

theorem assemble_all_lit_brace_free (segs : List Seg)
    (h : ∀ sg ∈ segs, ∃ s, sg = Seg.lit s ∧ '\x7b' ∉ s) : '\x7b' ∉ assemble segs := by
  induction segs with
  | nil => simp [assemble]
  | cons sg rest ih =>
    obtain ⟨s, rfl, hs⟩ := h sg (by simp)
    have hr := ih (fun sg' h' => h sg' (by simp [h']))
    show ¬ '\x7b' ∈ s ++ assemble rest
    simp only [List.mem_append, not_or]
    exact ⟨hs, hr⟩

/-! ## Helper lemmas on the store and the runner -/

theorem isPending_iff (c : Contact) : isPending c = true ↔ c.status = Status.Pending := by
  rcases c with ⟨i, f, l, e, st, s1, o1⟩
  cases st <;> simp [isPending]

theorem isPending_eq_false (c : Contact) : isPending c = false ↔ c.status ≠ Status.Pending := by
  rcases c with ⟨i, f, l, e, st, s1, o1⟩
  cases st <;> simp [isPending]

theorem maxIdJS_isSome_aux (cs : List Contact)
    (hall : ∀ c ∈ cs, (parseIntJS c.id).isSome = true) :
    ∀ init : Nat,
      ∃ m, cs.foldl (fun acc c =>
        match acc, parseIntJS c.id with
        | some m, some v => some (Nat.max m v)
        | _, _ => none) (some init) = some m := by
  induction cs with
  | nil => exact fun init => ⟨init, rfl⟩
  | cons c cs ih =>
    intro init
    obtain ⟨v, hv⟩ := Option.isSome_iff_exists.mp (hall c (by simp))
    obtain ⟨m, hm⟩ := ih (fun c' h' => hall c' (by simp [h'])) (Nat.max init v)
    refine ⟨m, ?_⟩
    simp only [List.foldl_cons, hv]
    exact hm

theorem clean_preserves (ids : List String) (c : Contact) :
    (cleanContact ids c).status = c.status
    ∧ (cleanContact ids c).sentTimestamp = c.sentTimestamp
    ∧ (cleanContact ids c).openTimestamp = c.openTimestamp := by
  unfold cleanContact
  split <;> simp

theorem contactInv_mkContact (i : String) (d : ContactData) : ContactInv (mkContact i d) := by
  refine ⟨fun _ => rfl, fun h => ?_⟩
  simp [mkContact] at h

theorem contactStep_inv (sOk : Contact → Bool) (now : String) (c : Contact)
    (h : ContactInv c) : ContactInv (contactStep sOk now c) := by
  unfold contactStep
  by_cases hp : isPending c
  · by_cases hk : sOk c
    · simp [hp, hk, ContactInv]
    · simp [hp, hk, ContactInv]
  · simp [hp]
    exact h

theorem trackUpdate_inv (now id : String) :
    ∀ cs, StoreInv cs → StoreInv (trackUpdate now id cs) := by
  intro cs
  induction cs with
  | nil => exact fun h => h
  | cons c cs ih =>
    intro h
    have hc := h c (by simp)
    have hcs : StoreInv cs := fun c' h' => h c' (by simp [h'])
    by_cases hid : c.id = id
    · by_cases hop : c.openTimestamp = none
      · intro c' h'
        simp only [trackUpdate, if_pos hid, if_pos hop, List.mem_cons] at h'
        rcases h' with h' | h'
        · subst h'
          exact hc
        · exact hcs c' h'
      · intro c' h'
        simp only [trackUpdate, if_pos hid, if_neg hop, List.mem_cons] at h'
        rcases h' with h' | h'
        · subst h'
          exact hc
        · exact hcs c' h'
    · intro c' h'
      simp only [trackUpdate, if_neg hid, List.mem_cons] at h'
      rcases h' with h' | h'
      · subst h'
        exact hc
      · exact ih hcs c' h'

theorem trackUpdate_idem (now now2 id : String) (cs : List Contact) :
    trackUpdate now2 id (trackUpdate now id cs) = trackUpdate now id cs := by
  induction cs with
  | nil => rfl
  | cons c cs ih =>
    by_cases hid : c.id = id
    · by_cases hop : c.openTimestamp = none
      · simp [trackUpdate, hid, hop]
      · simp [trackUpdate, hid, hop]
    · simp [trackUpdate, hid, ih]

theorem trackUpdate_not_found (now id : String) (cs : List Contact)
    (h : ∀ c ∈ cs, c.id ≠ id) : trackUpdate now id cs = cs := by
  induction cs with
  | nil => rfl
  | cons c cs ih =>
    simp [trackUpdate, h c (by simp), ih (fun c' h' => h c' (by simp [h']))]

theorem trackUpdate_first (now id : String) (a : List Contact) (c : Contact)
    (b : List Contact) (ha : ∀ x ∈ a, x.id ≠ id) (hc : c.id = id)
    (hop : c.openTimestamp = none) :
    trackUpdate now id (a ++ c :: b) = a ++ { c with openTimestamp := some now } :: b := by
  induction a with
  | nil => simp [trackUpdate, hc, hop]
  | cons x a ih =>
    simp [trackUpdate, ha x (by simp), ih (fun x' h' => ha x' (by simp [h']))]

/-! ## Claim theorems -/

/-- C1: for a run over exactly three pending contacts where the transport
fails for exactly the second one, the first and third end up Sent with a
non-null sentTimestamp, the second ends up Error, the aggregate reports
sent = 2, failed = 1 over 3 total with one per-contact error string, and
the failure does not stop the loop (the third contact is still sent). -/
theorem partial_failure_isolation (db : DB) (c1 c2 c3 : Contact)
    (sOk : Contact → Bool) (eM : Contact → String) (hM now : String)
    (hp : db.contacts.filter isPending = [c1, c2, c3])
    (h1 : sOk c1 = true) (h2 : sOk c2 = false) (h3 : sOk c3 = true) :
    ({ c1 with status := Status.Sent, sentTimestamp := some now }
        ∈ (sendCampaign true sOk eM hM now db).1.contacts)
    ∧ ({ c3 with status := Status.Sent, sentTimestamp := some now }
        ∈ (sendCampaign true sOk eM hM now db).1.contacts)
    ∧ ({ c2 with status := Status.Error }
        ∈ (sendCampaign true sOk eM hM now db).1.contacts)
    ∧ (sendCampaign true sOk eM hM now db).2.stats
        = some { sent := 2, failed := 1, total := 3 }
    ∧ (sendCampaign true sOk eM hM now db).2.success = true
    ∧ (sendCampaign true sOk eM hM now db).2.errors = [c2.email ++ ": " ++ eM c2] := by
  have hne : (db.contacts.filter isPending).isEmpty = false := by rw [hp]; rfl
  have hmain : (sendCampaign true sOk eM hM now db).1.contacts
      = db.contacts.map (contactStep sOk now) := by
    simp [sendCampaign, hne]
  have hmem : ∀ c : Contact, c ∈ [c1, c2, c3] →
      c ∈ db.contacts ∧ isPending c = true := by
    intro c hc
    have hcf : c ∈ db.contacts.filter isPending := by rw [hp]; exact hc
    exact ⟨List.mem_of_mem_filter hcf, (List.mem_filter.mp hcf).2⟩
  have hmem1 := hmem c1 (by simp)
  have hmem2 := hmem c2 (by simp)
  have hmem3 := hmem c3 (by simp)
  have hs1 : contactStep sOk now c1
      = { c1 with status := Status.Sent, sentTimestamp := some now } := by
    simp [contactStep, hmem1.2, h1]
  have hs2 : contactStep sOk now c2 = { c2 with status := Status.Error } := by
    simp [contactStep, hmem2.2, h2]
  have hs3 : contactStep sOk now c3
      = { c3 with status := Status.Sent, sentTimestamp := some now } := by
    simp [contactStep, hmem3.2, h3]
  refine ⟨?_, ?_, ?_, ?_, ?_, ?_⟩
  · rw [hmain, ← hs1]
    exact List.mem_map_of_mem _ hmem1.1
  · rw [hmain, ← hs3]
    exact List.mem_map_of_mem _ hmem3.1
  · rw [hmain, ← hs2]
    exact List.mem_map_of_mem _ hmem2.1
  · simp [sendCampaign, hne, hp, List.filter_cons, h1, h2, h3]
  · simp [sendCampaign, hne, hp, List.filter_cons, h1, h2, h3]
  · simp [sendCampaign, hne, hp, List.filter_cons, h1, h2, h3]

/-- C1 witness: the concrete three-contact store dbC1 where the transport
fails exactly for the contact with id 2. -/
theorem partial_failure_isolation_witness :
    ({ pendingContact "1" "Ann" "One" "ann@x.com" with
        status := Status.Sent, sentTimestamp := some "t" }
        ∈ (sendCampaign true sOkC1 (fun _ => "boom") "h" "t" dbC1).1.contacts)
    ∧ ({ pendingContact "3" "Cay" "Three" "cay@x.com" with
        status := Status.Sent, sentTimestamp := some "t" }
        ∈ (sendCampaign true sOkC1 (fun _ => "boom") "h" "t" dbC1).1.contacts)
    ∧ ({ pendingContact "2" "Bob" "Two" "bob@x.com" with status := Status.Error }
        ∈ (sendCampaign true sOkC1 (fun _ => "boom") "h" "t" dbC1).1.contacts)
    ∧ (sendCampaign true sOkC1 (fun _ => "boom") "h" "t" dbC1).2.stats
        = some { sent := 2, failed := 1, total := 3 }
    ∧ (sendCampaign true sOkC1 (fun _ => "boom") "h" "t" dbC1).2.success = true
    ∧ (sendCampaign true sOkC1 (fun _ => "boom") "h" "t" dbC1).2.errors
        = [(pendingContact "2" "Bob" "Two" "bob@x.com").email ++ ": "
            ++ (fun _ => "boom") (pendingContact "2" "Bob" "Two" "bob@x.com")] :=
  partial_failure_isolation dbC1
    (pendingContact "1" "Ann" "One" "ann@x.com")
    (pendingContact "2" "Bob" "Two" "bob@x.com")
    (pendingContact "3" "Cay" "Three" "cay@x.com")
    sOkC1 (fun _ => "boom") "h" "t"
    (by decide) (by decide) (by decide) (by decide)

/-- C2 counterexample: with zero pending contacts the run returns a result
whose success flag is false and which carries no stats at all, so it is not
a non-error result reporting emailsSent = 0 as the claim states. -/
theorem no_pending_result_reports_failure :
    (sendCampaign true (fun _ => true) (fun _ => "") "" "t" dbC2).2.success = false
    ∧ (sendCampaign true (fun _ => true) (fun _ => "") "" "t" dbC2).2.stats = none := by
  decide

/-- C2 (amended): whenever no contact is Pending, the run performs no work
(the store is returned unchanged) and returns the fixed result with
success = false, the no-pending message, no error detail and no stats; and
running it again on the resulting store yields the very same pair, so the
skip is idempotent. -/
theorem no_pending_run_is_noop (hy : Bool) (sOk : Contact → Bool)
    (eM : Contact → String) (hM now : String) (db : DB)
    (h : db.contacts.filter isPending = []) :
    sendCampaign hy sOk eM hM now db = (db, noPendingResult)
    ∧ ∀ (hy2 : Bool) (sOk2 : Contact → Bool) (eM2 : Contact → String) (hM2 now2 : String),
        sendCampaign hy2 sOk2 eM2 hM2 now2 (sendCampaign hy sOk eM hM now db).1
          = (db, noPendingResult) := by
  have h1 : sendCampaign hy sOk eM hM now db = (db, noPendingResult) := by
    simp [sendCampaign, h]
  refine ⟨h1, fun hy2 sOk2 eM2 hM2 now2 => ?_⟩
  rw [h1]
  simp [sendCampaign, h]

/-- C2 witness: the store dbC2 holding one Sent contact has no pending
contact, and the run is the identity on it with the fixed no-pending
result. -/
theorem no_pending_run_is_noop_witness :
    dbC2.contacts.filter isPending = []
    ∧ sendCampaign true (fun _ => true) (fun _ => "") "" "t" dbC2 = (dbC2, noPendingResult) :=
  ⟨by decide,
   (no_pending_run_is_noop true (fun _ => true) (fun _ => "") "" "t" dbC2 (by decide)).1⟩

/-- C3: when the pre-flight health check fails, the run never touches the
store, and as soon as there is at least one pending contact the returned
result is exactly the configuration-error result (success = false, the
backend-connection message, the error detail, no stats, no per-contact
errors). -/
theorem unhealthy_aborts (sOk : Contact → Bool) (eM : Contact → String)
    (hM now : String) (db : DB) :
    (sendCampaign false sOk eM hM now db).1 = db
    ∧ ((db.contacts.filter isPending).isEmpty = false →
        (sendCampaign false sOk eM hM now db).2 = configErrorResult hM) := by
  constructor
  · by_cases h : (db.contacts.filter isPending).isEmpty = true
    · simp [sendCampaign, h]
    · simp [sendCampaign, h]
  · intro h
    simp [sendCampaign, h]

/-- C3 witness: the one-pending-contact store dbC3 with an unhealthy
backend. -/
theorem unhealthy_aborts_witness :
    (sendCampaign false (fun _ => true) (fun _ => "") "hm" "t" dbC3).1 = dbC3
    ∧ (sendCampaign false (fun _ => true) (fun _ => "") "hm" "t" dbC3).2
        = configErrorResult "hm" :=
  ⟨(unhealthy_aborts (fun _ => true) (fun _ => "") "hm" "t" dbC3).1,
   (unhealthy_aborts (fun _ => true) (fun _ => "") "hm" "t" dbC3).2 (by decide)⟩

/-- C4 counterexample: addContact with every required field empty still
appends a contact to the store and reports success, so missing required
fields are not rejected before mutating the store. -/
theorem addContact_accepts_empty_fields :
    (addContact { firstName := "", lastName := "", email := "" } emptyDB).1.contacts.length = 1
    ∧ (addContact { firstName := "", lastName := "", email := "" } emptyDB).2.success = true := by
  decide

/-- C4 (amended): addContact and addContacts perform no input validation at
all: every input, including one with empty firstName/lastName/email, is
appended to the store (status Pending, null timestamps) and a success
result is returned; addContacts always grows the store by exactly the
number of supplied records. -/
theorem add_actions_never_reject (d : ContactData) (ds : List ContactData) (db : DB) :
    (addContact d db).1.contacts = db.contacts ++ [mkContact (newIdFor db.contacts) d]
    ∧ (addContact d db).2.success = true
    ∧ (addContacts ds db).1.contacts.length = db.contacts.length + ds.length
    ∧ (addContacts ds db).2.success = true := by
  refine ⟨rfl, rfl, ?_, rfl⟩
  cases h : maxIdJS db.contacts with
  | some m => simp [addContacts, h]
  | none => simp [addContacts, h]

/-- C6: the sanitizer on the two spec examples: the output for FREE MONEY
contains neither FREE nor MONEY verbatim, and the output for HELLO!!! is
exactly Hello! (one trailing exclamation mark and no longer all
upper-case). -/
theorem antiSpam_examples :
    (containsSub "FREE".toList (createAntiSpamSubject "FREE MONEY" "x").toList = false
      ∧ containsSub "MONEY".toList (createAntiSpamSubject "FREE MONEY" "x").toList = false)
    ∧ createAntiSpamSubject "HELLO!!!" "x" = "Hello!"
    ∧ (createAntiSpamSubject "HELLO!!!" "x").toList.getLast? = some '!'
    ∧ (createAntiSpamSubject "HELLO!!!" "x").toList.dropLast.getLast? ≠ some '!'
    ∧ (createAntiSpamSubject "HELLO!!!" "x").toList.map Char.toUpper
        ≠ (createAntiSpamSubject "HELLO!!!" "x").toList := by
  decide

/-- C5 counterexample: a template consisting of the single known token for
the first name, with two contacts for which the claim quantified over
every contact fails: one whose firstName value is itself the literal token
text (replacement text is never rescanned), and one whose firstName is the
two-character dollar-ampersand string, which GetSubstitution expands to
the matched token text. Either way the output still contains the token. -/
theorem personalize_adversarial_contact :
    containsSub (tokStr Tok.first)
      (personalizeL (tokStr Tok.first) [] [] (assemble [Seg.tok Tok.first])) = true
    ∧ containsSub (tokStr Tok.first)
        (personalizeL ['$', '&'] [] [] (assemble [Seg.tok Tok.first])) = true := by
  decide

/-- C5 (amended): for every template built only from literal text without
braces and the four known tokens, and every contact whose field values and
date string contain no opening brace and no dollar sign (braces would be
placeholder text reinserted literally, a dollar sign triggers the
GetSubstitution forms of String.replace), the personalized output contains
no brace at all, in particular no remaining placeholder text; and any
content in which none of the four known tokens occurs, unknown
placeholders included, passes through completely unchanged. -/
theorem personalize_known_tokens (segs : List Seg) (first last dateStr : List Char)
    (hsegs : ∀ s, Seg.lit s ∈ segs → '\x7b' ∉ s)
    (hf : '\x7b' ∉ first) (hl : '\x7b' ∉ last) (hdt : '\x7b' ∉ dateStr)
    (hf2 : '$' ∉ first) (hl2 : '$' ∉ last) (hdt2 : '$' ∉ dateStr) :
    ('\x7b' ∉ personalizeL first last dateStr (assemble segs)
      ∧ containsSub ['\x7b', '\x7b']
          (personalizeL first last dateStr (assemble segs)) = false)
    ∧ (∀ s, (∀ t : Tok, containsSub (tokStr t) s = false) →
        personalizeL first last dateStr s = s) := by
  have hfull : '\x7b' ∉ fullNameOf first last := by
    intro hm
    have hmem := mem_trimL hm
    rcases List.mem_append.mp hmem with hmf | hml
    · exact hf hmf
    · rcases List.mem_cons.mp hml with hsp | hml2
      · exact absurd hsp (by decide)
      · exact hl hml2
  have hfull2 : '$' ∉ fullNameOf first last := by
    intro hm
    have hmem := mem_trimL hm
    rcases List.mem_append.mp hmem with hmf | hml
    · exact hf2 hmf
    · rcases List.mem_cons.mp hml with hsp | hml2
      · exact absurd hsp (by decide)
      · exact hl2 hml2
  have hsegs1 := substTok_lit_brace_free Tok.first first segs hsegs hf
  have hsegs2 := substTok_lit_brace_free Tok.last last _ hsegs1 hl
  have hsegs3 := substTok_lit_brace_free Tok.full (fullNameOf first last) _ hsegs2 hfull
  have hsegs4 := substTok_lit_brace_free Tok.date dateStr _ hsegs3 hdt
  have heq : personalizeL first last dateStr (assemble segs)
      = assemble (substTok Tok.date dateStr
          (substTok Tok.full (fullNameOf first last)
            (substTok Tok.last last (substTok Tok.first first segs)))) := by
    simp only [personalizeL]
    rw [replaceAll_assemble Tok.first first segs hsegs hf2,
      replaceAll_assemble Tok.last last _ hsegs1 hl2,
      replaceAll_assemble Tok.full (fullNameOf first last) _ hsegs2 hfull2,
      replaceAll_assemble Tok.date dateStr _ hsegs3 hdt2]
  have hall : ∀ sg ∈ substTok Tok.date dateStr
      (substTok Tok.full (fullNameOf first last)
        (substTok Tok.last last (substTok Tok.first first segs))),
      ∃ s, sg = Seg.lit s ∧ '\x7b' ∉ s := by
    intro sg hsg
    cases sg with
    | lit s => exact ⟨s, rfl, hsegs4 s hsg⟩
    | tok t0 =>
      exfalso
      have h4 := substTok_tok_mem _ _ _ _ hsg
      have h3 := substTok_tok_mem _ _ _ _ h4.2
      have h2 := substTok_tok_mem _ _ _ _ h3.2
      have h1 := substTok_tok_mem _ _ _ _ h2.2
      cases t0 with
      | first => exact h1.1 rfl
      | last => exact h2.1 rfl
      | full => exact h3.1 rfl
      | date => exact h4.1 rfl
  have hout : '\x7b' ∉ personalizeL first last dateStr (assemble segs) := by
    rw [heq]
    exact assemble_all_lit_brace_free _ hall
  refine ⟨⟨hout, containsSub_eq_false_of_head_not_mem _ _ _ hout⟩, ?_⟩
  intro s hs
  simp only [personalizeL, replaceAllL]
  rw [rt_id_of_not_contains _ _ _ (hs Tok.first) [],
    rt_id_of_not_contains _ _ _ (hs Tok.last) [],
    rt_id_of_not_contains _ _ _ (hs Tok.full) [],
    rt_id_of_not_contains _ _ _ (hs Tok.date) []]

/-- C5 witness: the concrete two-segment template Hi followed by the
first-name token, resolved for a brace-free contact, and an unknown
placeholder left untouched. -/
theorem personalize_known_tokens_witness :
    '\x7b' ∉ personalizeL "Bob".toList "Ray".toList "1/1".toList (assemble segsC5)
    ∧ personalizeL "Bob".toList "Ray".toList "1/1".toList unknownTokC5 = unknownTokC5 := by
  have hsegs : ∀ s, Seg.lit s ∈ segsC5 → '\x7b' ∉ s := by
    intro s hs
    have h1 : s = ['H', 'i', ' '] := by simpa [segsC5] using hs
    subst h1
    decide
  have h := personalize_known_tokens segsC5 "Bob".toList "Ray".toList "1/1".toList hsegs
    (by decide) (by decide) (by decide) (by decide) (by decide) (by decide)
  exact ⟨h.1.1, h.2 unknownTokC5 (fun t => by cases t <;> decide)⟩

/-- C7: the tracking endpoint state effect is idempotent (a second call for
the same id changes nothing), a lookup miss leaves the store unchanged, the
response is always the fixed pixel with its cache-disabling headers, and
for the first contact carrying an existing id with no openTimestamp yet the
call sets exactly that timestamp. -/
theorem track_props :
    (∀ now now2 id cs, (trackGet now2 id (trackGet now id cs).1).1 = (trackGet now id cs).1)
    ∧ (∀ now id cs, (∀ c ∈ cs, c.id ≠ id) → (trackGet now id cs).1 = cs)
    ∧ (∀ now id cs, (trackGet now id cs).2 = pixelResponse)
    ∧ (∀ now id a c b, id ≠ "" → (∀ x ∈ a, x.id ≠ id) → c.id = id →
        c.openTimestamp = none →
        (trackGet now id (a ++ c :: b)).1
          = a ++ { c with openTimestamp := some now } :: b) := by
  refine ⟨?_, ?_, ?_, ?_⟩
  · intro now now2 id cs
    by_cases hid : id = ""
    · simp [trackGet, hid]
    · simp [trackGet, hid, trackUpdate_idem]
  · intro now id cs h
    by_cases hid : id = ""
    · simp [trackGet, hid]
    · simp [trackGet, hid, trackUpdate_not_found now id cs h]
  · intro now id cs
    rfl
  · intro now id a c b hid ha hc hop
    simp [trackGet, hid, trackUpdate_first now id a c b ha hc hop]

/-- C7 witness: the one-contact list trackListC7 with contact id 7: the
first call sets openTimestamp, the second call is the identity, an unknown
id is a no-op, and the response is the pixel. -/
theorem track_props_witness :
    (trackGet "t2" "7" (trackGet "t1" "7" trackListC7).1).1 = (trackGet "t1" "7" trackListC7).1
    ∧ (trackGet "t1" "9" trackListC7).1 = trackListC7
    ∧ (trackGet "t1" "7" trackListC7).2 = pixelResponse
    ∧ (trackGet "t1" "7" ([] ++ pendingContact "7" "A" "B" "a@x.com" :: [])).1
        = [] ++ { pendingContact "7" "A" "B" "a@x.com" with
            openTimestamp := some "t1" } :: [] :=
  ⟨track_props.1 "t1" "t2" "7" trackListC7,
   track_props.2.1 "t1" "9" trackListC7 (by decide),
   track_props.2.2.1 "t1" "7" trackListC7,
   track_props.2.2.2 "t1" "7" [] (pendingContact "7" "A" "B" "a@x.com") []
     (by decide) (by decide) (by decide) (by decide)⟩

/-- C8: addContact on an empty store assigns id 1; on any store whose ids
all parse as decimal numbers it assigns one plus the maximum id; and after
deleting every contact the next added contact gets id 1 again, so ids are
derived from the current maximum and can be reused. -/
theorem id_assignment (d : ContactData) (db : DB) (ids : List String)
    (hall : ∀ c ∈ db.contacts, (parseIntJS c.id).isSome = true)
    (hdel : ∀ c ∈ db.contacts, c.id ∈ ids) :
    (addContact d emptyDB).1.contacts = [mkContact "1" d]
    ∧ (∃ m, maxIdJS db.contacts = some m
        ∧ (addContact d db).1.contacts
            = db.contacts ++ [mkContact (toString (m + 1)) d])
    ∧ (deleteContacts ids db).1.contacts = []
    ∧ (addContact d (deleteContacts ids db).1).1.contacts = [mkContact "1" d] := by
  have hempty : (deleteContacts ids db).1.contacts = [] := by
    show db.contacts.filter (fun c => !(decide (c.id ∈ ids))) = []
    rw [List.filter_eq_nil_iff]
    intro c hc
    simp [hdel c hc]
  obtain ⟨m, hm⟩ := maxIdJS_isSome_aux db.contacts hall 0
  refine ⟨rfl, ⟨m, hm, ?_⟩, hempty, ?_⟩
  · show db.contacts ++ [mkContact (newIdFor db.contacts) d] = _
    rw [newIdFor, show maxIdJS db.contacts = some m from hm]
  · show (deleteContacts ids db).1.contacts
        ++ [mkContact (newIdFor (deleteContacts ids db).1.contacts) d] = [mkContact "1" d]
    rw [hempty]
    rfl

/-- C8 witness: the two-contact store dbC8 with numeric ids 1 and 2:
deleting both and adding a fresh contact yields id 1 again. -/
theorem id_assignment_witness :
    (addContact dW emptyDB).1.contacts = [mkContact "1" dW]
    ∧ (deleteContacts ["1", "2"] dbC8).1.contacts = []
    ∧ (addContact dW (deleteContacts ["1", "2"] dbC8).1).1.contacts = [mkContact "1" dW] :=
  ⟨(id_assignment dW dbC8 ["1", "2"] (by decide) (by decide)).1,
   (id_assignment dW dbC8 ["1", "2"] (by decide) (by decide)).2.2.1,
   (id_assignment dW dbC8 ["1", "2"] (by decide) (by decide)).2.2.2⟩

/-- C9: every operation preserves the store invariant that a Pending
contact has a null sentTimestamp and a Sent contact a non-null one (status
is one of the three values by construction of the Status type); a contact
moved to Error by a failed send keeps both timestamps exactly as they
were. -/
theorem operations_preserve_inv (db : DB) (h : StoreInv db.contacts) :
    (∀ d, StoreInv (addContact d db).1.contacts)
    ∧ (∀ ds, StoreInv (addContacts ds db).1.contacts)
    ∧ (∀ ids, StoreInv (deleteContacts ids db).1.contacts)
    ∧ (∀ ids, StoreInv (cleanContacts ids db).1.contacts)
    ∧ (∀ hy sOk eM hM now, StoreInv (sendCampaign hy sOk eM hM now db).1.contacts)
    ∧ (∀ now id, StoreInv (trackGet now id db.contacts).1)
    ∧ (∀ sOk now c, sOk c = false →
        (contactStep sOk now c).sentTimestamp = c.sentTimestamp
          ∧ (contactStep sOk now c).openTimestamp = c.openTimestamp) := by
  refine ⟨?_, ?_, ?_, ?_, ?_, ?_, ?_⟩
  · intro d c hc
    rcases List.mem_append.mp hc with hc | hc
    · exact h c hc
    · rcases List.mem_singleton.mp hc with rfl
      exact contactInv_mkContact _ _
  · intro ds c hc
    cases hmx : maxIdJS db.contacts with
    | some m =>
      simp only [addContacts, hmx, List.mem_append] at hc
      rcases hc with hc | hc
      · exact h c hc
      · obtain ⟨p, _, rfl⟩ := List.mem_map.mp hc
        exact contactInv_mkContact _ _
    | none =>
      simp only [addContacts, hmx, List.mem_append] at hc
      rcases hc with hc | hc
      · exact h c hc
      · obtain ⟨d0, _, rfl⟩ := List.mem_map.mp hc
        exact contactInv_mkContact _ _
  · intro ids c hc
    exact h c (List.mem_of_mem_filter hc)
  · intro ids c hc
    obtain ⟨c0, hc0, rfl⟩ := List.mem_map.mp hc
    have hp := clean_preserves ids c0
    have h0 := h c0 hc0
    refine ⟨fun hs => ?_, fun hs => ?_⟩
    · rw [hp.2.1]
      exact h0.1 (by rw [← hp.1]; exact hs)
    · rw [hp.2.1]
      exact h0.2 (by rw [← hp.1]; exact hs)
  · intro hy sOk eM hM now
    by_cases he : (db.contacts.filter isPending).isEmpty = true
    · have heq : (sendCampaign hy sOk eM hM now db).1 = db := by simp [sendCampaign, he]
      rw [heq]
      exact h
    · by_cases hh : hy = false
      · have heq : (sendCampaign hy sOk eM hM now db).1 = db := by
          simp [sendCampaign, he, hh]
        rw [heq]
        exact h
      · have heq : (sendCampaign hy sOk eM hM now db).1.contacts
            = db.contacts.map (contactStep sOk now) := by
          simp [sendCampaign, he, hh]
        rw [heq]
        intro c hc
        obtain ⟨c0, hc0, rfl⟩ := List.mem_map.mp hc
        exact contactStep_inv sOk now c0 (h c0 hc0)
  · intro now id
    by_cases hid : id = ""
    · simp only [trackGet, if_pos hid]
      exact h
    · simp only [trackGet, if_neg hid]
      exact trackUpdate_inv now id db.contacts h
  · intro sOk now c hk
    unfold contactStep
    by_cases hp : isPending c
    · simp [hp, hk]
    · simp [hp]

/-- C9 witness: the mixed store dbC9 (one Sent contact with timestamp, one
fresh Pending contact) satisfies the invariant and keeps it across a run in
which every send fails. -/
theorem operations_preserve_inv_witness :
    StoreInv (sendCampaign true (fun _ => false) (fun _ => "m") "h" "t" dbC9).1.contacts :=
  (operations_preserve_inv dbC9 (by
    intro c hc
    rcases List.mem_cons.mp hc with rfl | hc
    · exact ⟨fun hs => by simp [sentContact] at hs, fun _ => by simp [sentContact]⟩
    · rcases List.mem_cons.mp hc with rfl | hc
      · exact ⟨fun _ => rfl, fun hs => by simp [pendingContact] at hs⟩
      · simp at hc)).2.2.2.2.1 true (fun _ => false) (fun _ => "m") "h" "t"

/-- C10: statuses Sent and Error are terminal: the per-contact step of the
runner is the identity on any non-Pending contact and the run preserves
such contacts at their positions; tracking and cleaning never write status
or sentTimestamp; adding contacts leaves existing entries untouched;
deletion only removes entries; updating the campaign record does not touch
contacts at all. -/
theorem terminal_statuses_never_change :
    (∀ (sOk : Contact → Bool) (now : String) (c : Contact),
        c.status ≠ Status.Pending → contactStep sOk now c = c)
    ∧ (∀ (hy : Bool) (sOk : Contact → Bool) (eM : Contact → String) (hM now : String)
        (db : DB) (i : Nat) (c : Contact), db.contacts[i]? = some c →
        c.status ≠ Status.Pending →
        (sendCampaign hy sOk eM hM now db).1.contacts[i]? = some c)
    ∧ (∀ (now id : String) (cs : List Contact) (i : Nat) (c : Contact), cs[i]? = some c →
        ∃ c2 : Contact, (trackUpdate now id cs)[i]? = some c2
          ∧ c2.status = c.status ∧ c2.sentTimestamp = c.sentTimestamp)
    ∧ (∀ (ids : List String) (c : Contact), (cleanContact ids c).status = c.status
        ∧ (cleanContact ids c).sentTimestamp = c.sentTimestamp
        ∧ (cleanContact ids c).openTimestamp = c.openTimestamp)
    ∧ (∀ (d : ContactData) (db : DB) (i : Nat), i < db.contacts.length →
        (addContact d db).1.contacts[i]? = db.contacts[i]?)
    ∧ (∀ (ds : List ContactData) (db : DB) (i : Nat), i < db.contacts.length →
        (addContacts ds db).1.contacts[i]? = db.contacts[i]?)
    ∧ (∀ (ids : List String) (db : DB) (c : Contact),
        c ∈ (deleteContacts ids db).1.contacts → c ∈ db.contacts)
    ∧ (∀ (cd : Campaign) (db : DB), (updateCampaign cd db).1.contacts = db.contacts) := by
  have hstep : ∀ (sOk : Contact → Bool) (now : String) (c : Contact),
      c.status ≠ Status.Pending → contactStep sOk now c = c := by
    intro sOk now c hc
    have hp : isPending c = false := (isPending_eq_false c).mpr hc
    simp [contactStep, hp]
  refine ⟨hstep, ?_, ?_, ?_, ?_, ?_, ?_, ?_⟩
  · intro hy sOk eM hM now db i c hi hc
    by_cases he : (db.contacts.filter isPending).isEmpty = true
    · have heq : (sendCampaign hy sOk eM hM now db).1 = db := by simp [sendCampaign, he]
      rw [heq]
      exact hi
    · by_cases hh : hy = false
      · have heq : (sendCampaign hy sOk eM hM now db).1 = db := by
          simp [sendCampaign, he, hh]
        rw [heq]
        exact hi
      · have heq : (sendCampaign hy sOk eM hM now db).1.contacts
            = db.contacts.map (contactStep sOk now) := by
          simp [sendCampaign, he, hh]
        rw [heq, List.getElem?_map, hi]
        simp [hstep sOk now c hc]
  · intro now id cs
    induction cs with
    | nil => intro i c hi; simp at hi
    | cons c0 cs ih =>
      intro i c hi
      cases i with
      | zero =>
        simp only [List.getElem?_cons_zero, Option.some.injEq] at hi
        subst hi
        by_cases hid : c0.id = id
        · by_cases hop : c0.openTimestamp = none
          · exact ⟨{ c0 with openTimestamp := some now }, by simp [trackUpdate, hid, hop], rfl, rfl⟩
          · exact ⟨c0, by simp [trackUpdate, hid, hop], rfl, rfl⟩
        · exact ⟨c0, by simp [trackUpdate, hid], rfl, rfl⟩
      | succ i =>
        simp only [List.getElem?_cons_succ] at hi
        by_cases hid : c0.id = id
        · by_cases hop : c0.openTimestamp = none
          · exact ⟨c, by simp [trackUpdate, hid, hop, hi], rfl, rfl⟩
          · exact ⟨c, by simp [trackUpdate, hid, hop, hi], rfl, rfl⟩
        · obtain ⟨c2, hc2, hs2, ht2⟩ := ih i c hi
          exact ⟨c2, by simp [trackUpdate, hid, hc2], hs2, ht2⟩
  · exact clean_preserves
  · intro d db i hlen
    show (db.contacts ++ [mkContact (newIdFor db.contacts) d])[i]? = db.contacts[i]?
    rw [List.getElem?_append_left hlen]
  · intro ds db i hlen
    show (db.contacts ++ _)[i]? = db.contacts[i]?
    rw [List.getElem?_append_left hlen]
  · intro ids db c hc
    exact List.mem_of_mem_filter hc
  · intro cd db
    rfl

/-- C10 witness: in the mixed store dbC10 the Sent contact at position 0 is
unchanged by a run in which every transport call succeeds. -/
theorem terminal_statuses_never_change_witness :
    (sendCampaign true (fun _ => true) (fun _ => "") "h" "t" dbC10).1.contacts[0]?
      = some (sentContact "1") :=
  terminal_statuses_never_change.2.1 true (fun _ => true) (fun _ => "") "h" "t" dbC10 0
    (sentContact "1") (by decide) (by decide)

end Studio
